import Mathlib

/-!
Shallow embedding of the cook-cook backend (Express + Prisma, `src/index.js`,
`src/uploads.js`, `src/utils/validate.js`, schema from the Prisma migrations).

Modelling conventions, chosen once and used throughout:

* Database ids (Prisma cuids: non-empty opaque strings compared only with
  `===`) are modelled as `Nat`.  The cuid generator is modelled as the
  counter `DB.nextId`; well-formedness (`WF`) says every allocated id is
  below the counter, which is exactly the freshness the generator provides.
  A cuid string is never empty, so an id-valued field is JS-truthy iff it
  is non-null; `Option Nat` with `Option.isSome` as truthiness is faithful.
* JSON payload fields are `Option`s (`none` = key absent / `undefined`);
  a present value is classified by the small inductives `JStr`, `JArr`,
  `JMeta`, `JBest` below, which record exactly the distinctions the
  handlers make (`typeof v === "string"`, `Array.isArray`, plain object,
  `null`, non-empty id-like string).
* `createdAt` timestamps are the `Nat` clock `DB.now`, bumped on creation.
* `meta` is stored and echoed opaquely by every route and inspected by
  none, so the stored copy is omitted from the record model; validation of
  the payload `meta` field (which does affect responses) is kept.
* Image rows have no behaviour attached to their primary key (the routes
  only ever filter them by `recipeId`/`attemptId`), so the model keeps
  `url`, `recipeId`, `attemptId` and drops the unused `id` column.
* `bcrypt.hash(p, 10)` is modelled as the injective pure function
  `bcryptHash`; `bcrypt.compare(p, h)` is `bcryptHash p == h`.
* `prisma.$transaction` is a single state transition of the model; each
  route is one Lean function `DB → … → Resp × DB`.
* SQLite/Prisma constraint behaviour that the routes rely on is modelled
  where a route can hit it: the unique index `User_email_key` (violating
  `user.create` throws, the route's `catch` answers 500) and the foreign
  key `Recipe_authorId_fkey` (creating a recipe with an `authorId` that is
  no user's id throws, answered as 500).
-/

namespace Cook

/-! ### JS string helpers (ASCII-faithful models of `trim`, `toLowerCase`, `includes`) -/

/-- JS `String.prototype.toLowerCase`, char by char. -/
def jsToLower (s : String) : String := ⟨s.data.map Char.toLower⟩

/-- JS `String.prototype.trim`: strip leading and trailing whitespace. -/
def jsTrim (s : String) : String :=
  ⟨((s.data.dropWhile Char.isWhitespace).reverse.dropWhile Char.isWhitespace).reverse⟩

/-- `charsStart n h`: the char list `n` is a prefix of `h`. -/
def charsStart : List Char → List Char → Bool
  | [], _ => true
  | _ :: _, [] => false
  | a :: as, b :: bs => a == b && charsStart as bs

/-- `charsSub n h`: the char list `n` occurs contiguously in `h`. -/
def charsSub (n : List Char) : List Char → Bool
  | [] => n.isEmpty
  | c :: t => charsStart n (c :: t) || charsSub n t

/-- JS `hay.includes(needle)`. -/
def jsIncludes (hay needle : String) : Bool := charsSub needle.data hay.data

/-! ### JSON payload field values -/

/-- A present JSON value in a string-typed field slot. -/
inductive JStr where
  /-- the value is a string with these contents -/
  | str (s : String)
  /-- the value is present but not a string -/
  | notStr
deriving DecidableEq

/-- A present JSON value in the `images` slot.  The handlers only ever map
an array element `url` straight into an `Image` row, so array elements are
kept as the strings they are in every honest request. -/
inductive JArr where
  | arr (xs : List String)
  | notArr
deriving DecidableEq

/-- A present JSON value in the `meta` slot.  `isPlainObject` is true for a
plain object and false for `null`, arrays and primitives; the contents are
never inspected, so an object is a bare marker. -/
inductive JMeta where
  | obj
  | notObj
deriving DecidableEq

/-- A present JSON value in the `bestAttemptId` slot.  A non-empty string
is id-like and is modelled by the id it denotes (`jid`); `jbad` is any
value failing `isNonEmptyString` (non-string, or empty after trim). -/
inductive JBest where
  | jnull
  | jid (i : Nat)
  | jbad
deriving DecidableEq

/-! ### validate.js helpers, applied to an optional payload field
(`none` is JS `undefined`, which is not a string) -/

/-- `isNonEmptyString(payload.x)`. -/
def jIsNonEmptyString : Option JStr → Bool
  | some (.str s) => jsTrim s != ""
  | _ => false

/-- `isStringOrEmpty(payload.x)`. -/
def jIsString : Option JStr → Bool
  | some (.str _) => true
  | _ => false

/-- The string contents of a field the validation has established to be a
string (default `""` on the unreachable non-string case). -/
def jStrVal : Option JStr → String
  | some (.str s) => s
  | _ => ""

/-- `isStringOrEmpty(payload.x) ? payload.x : ""`. -/
def jStrOrEmpty : Option JStr → String
  | some (.str s) => s
  | _ => ""

/-- `ensureArray(payload.images)`. -/
def jArrVal : Option JArr → List String
  | some (.arr xs) => xs
  | _ => []

/-! ### Data model (Prisma schema) -/

/-- `User` row. -/
structure User where
  id : Nat
  email : String
  passwordHash : String
  name : Option String
deriving DecidableEq

/-- `Recipe` row.  `body`/`feedback` are nullable in the schema but every
write path stores a string, so they are modelled as `String`. -/
structure Recipe where
  id : Nat
  title : String
  body : String
  feedback : String
  bestAttemptId : Option Nat
  authorId : Option Nat
  createdAt : Nat
deriving DecidableEq

/-- `Attempt` row. -/
structure Attempt where
  id : Nat
  body : String
  feedback : String
  recipeId : Nat
  createdAt : Nat
deriving DecidableEq

/-- `Image` row (unused primary key omitted, see header). -/
structure Image where
  url : String
  recipeId : Option Nat
  attemptId : Option Nat
deriving DecidableEq

/-- The relational store plus the id generator and the clock. -/
structure DB where
  users : List User
  recipes : List Recipe
  attempts : List Attempt
  images : List Image
  nextId : Nat
  now : Nat
deriving DecidableEq

/-! ### Response shapes -/

/-- One entry of the structured `errors` array (`buildError`). -/
structure ApiErr where
  field : Option String
  message : String
deriving DecidableEq

/-- `buildError(field, message)` with a named field. -/
def mkErr (f m : String) : ApiErr := ⟨some f, m⟩

/-- Public projection of a user (`toPublicUser`; timestamps are not
modelled on users). -/
structure PublicUser where
  id : Nat
  email : String
  name : Option String
deriving DecidableEq

/-- Attempt as serialized in responses: row fields plus its image urls. -/
structure AttemptView where
  id : Nat
  body : String
  feedback : String
  recipeId : Nat
  createdAt : Nat
  images : List String
deriving DecidableEq

/-- Recipe as serialized in responses: row fields, direct image urls,
attempt views, and the derived `bestAttempt` (`recipeWithBest`). -/
structure RecipeView where
  id : Nat
  title : String
  body : String
  feedback : String
  bestAttemptId : Option Nat
  authorId : Option Nat
  createdAt : Nat
  images : List String
  attempts : List AttemptView
  bestAttempt : Option AttemptView
deriving DecidableEq

/-- JSON success payloads of the routes under study. -/
inductive ApiOut where
  | recipeOut (v : RecipeView)
  | listOut (total : Nat) (items : List RecipeView)
  | attemptOut (v : AttemptView)
  | userOut (u : PublicUser)
  | urlOut (url : String)
  | empty
deriving DecidableEq

/-- An HTTP response: a JSON success, a structured `errors` response, or a
response produced by the framework's default error handler (non-JSON). -/
inductive Resp where
  | ok (status : Nat) (out : ApiOut)
  | err (status : Nat) (errors : List ApiErr)
  | fatal (status : Nat)
deriving DecidableEq

/-- Status code of a response. -/
def Resp.status : Resp → Nat
  | .ok s _ => s
  | .err s _ => s
  | .fatal s => s

/-- Whether a response is a success. -/
def Resp.isOk : Resp → Bool
  | .ok _ _ => true
  | _ => false

/-! ### Row lookups (`prisma.<table>.findUnique({ where: { id } })`) -/

/-- First recipe row with the given id. -/
def lookupRecipe : List Recipe → Nat → Option Recipe
  | [], _ => none
  | r :: rs, i => if r.id = i then some r else lookupRecipe rs i

/-- First attempt row with the given id. -/
def lookupAttempt : List Attempt → Nat → Option Attempt
  | [], _ => none
  | a :: as, i => if a.id = i then some a else lookupAttempt as i

/-! ### View builders -/

/-- Image urls attached directly to a recipe (`include: { images: true }`
on a recipe, then `.map(img => img.url)`). -/
def recipeImageUrls (db : DB) (rid : Nat) : List String :=
  (db.images.filter fun i => i.recipeId == some rid).map (·.url)

/-- Image urls attached to an attempt. -/
def attemptImageUrls (db : DB) (aid : Nat) : List String :=
  (db.images.filter fun i => i.attemptId == some aid).map (·.url)

/-- Serialize an attempt row. -/
def attemptView (db : DB) (a : Attempt) : AttemptView :=
  { id := a.id, body := a.body, feedback := a.feedback, recipeId := a.recipeId
    createdAt := a.createdAt, images := attemptImageUrls db a.id }

/-- Attempt views of a recipe, in row order (`include: { attempts: ... }`). -/
def recipeAttemptViews (db : DB) (rid : Nat) : List AttemptView :=
  (db.attempts.filter fun a => a.recipeId == rid).map (attemptView db)

/-- Serialize a recipe row with its images and attempts, before
`recipeWithBest` runs (`bestAttempt` still unset). -/
def recipeViewRaw (db : DB) (r : Recipe) : RecipeView :=
  { id := r.id, title := r.title, body := r.body, feedback := r.feedback
    bestAttemptId := r.bestAttemptId, authorId := r.authorId
    createdAt := r.createdAt, images := recipeImageUrls db r.id
    attempts := recipeAttemptViews db r.id, bestAttempt := none }

/-- `recipeWithBest`: attach the best attempt found among the recipe's own
attempts by `bestAttemptId`, or `null`. -/
def withBest (v : RecipeView) : RecipeView :=
  { v with bestAttempt :=
      match v.bestAttemptId with
      | some bid => v.attempts.find? (fun a => a.id == bid)
      | none => none }

/-- Enriched view of a recipe row: `recipeWithBest` over the transformed
row, exactly what the read routes return per recipe. -/
def enrichRecipe (db : DB) (r : Recipe) : RecipeView := withBest (recipeViewRaw db r)

/-! ### Auth primitives -/

/-- Model of `bcrypt.hash(p, 10)` (injective, one-way not modelled);
`bcrypt.compare(p, h)` is `bcryptHash p == h`. -/
def bcryptHash (p : String) : String := "bcrypt2b10" ++ p

/-- `toPublicUser`. -/
def toPublicUser (u : User) : PublicUser := ⟨u.id, u.email, u.name⟩

/-- `findUserByEmail` (`prisma.user.findUnique({ where: { email } })`,
SQLite `=` on TEXT: exact, case-sensitive). -/
def findUserByEmail : List User → String → Option User
  | [], _ => none
  | u :: us, e => if u.email = e then some u else findUserByEmail us e

/-- Shared `register`/`login` field validation: both routes push the same
two errors for a missing/empty email or password, in this order. -/
def credErrors (email password : Option JStr) : List ApiErr :=
  (if jIsNonEmptyString email then [] else [mkErr "email" "email is required"]) ++
  (if jIsNonEmptyString password then [] else [mkErr "password" "password is required"])

/-- `POST /api/auth/register`.  Returns the response, the store, and the
session binding after the call.  Note the duplicate check runs
`findUserByEmail` on the *raw* request email while the row is stored
trimmed and lowercased; a normalized duplicate therefore slips past the
409 check and dies on the `User_email_key` unique index, which the
`catch` turns into a 500. -/
def register (db : DB) (sess : Option Nat) (email password name : Option JStr) :
    Resp × DB × Option Nat :=
  let errors := credErrors email password
  if errors ≠ [] then (.err 400 errors, db, sess)
  else if (findUserByEmail db.users (jStrVal email)).isSome then
    (.err 409 [mkErr "email" "email already registered"], db, sess)
  else
    let newEmail := jsToLower (jsTrim (jStrVal email))
    if db.users.any (fun u => u.email == newEmail) then
      (.err 500 [mkErr "database" "Failed to register"], db, sess)
    else
      let user : User :=
        { id := db.nextId, email := newEmail
          passwordHash := bcryptHash (jStrVal password)
          name := if jIsString name then some (jStrVal name) else none }
      (.ok 201 (.userOut (toPublicUser user)),
       { db with users := db.users ++ [user], nextId := db.nextId + 1 },
       some user.id)

/-- `POST /api/auth/login`. -/
def login (db : DB) (sess : Option Nat) (email password : Option JStr) :
    Resp × DB × Option Nat :=
  let errors := credErrors email password
  if errors ≠ [] then (.err 400 errors, db, sess)
  else
    match findUserByEmail db.users (jsToLower (jsTrim (jStrVal email))) with
    | none => (.err 401 [mkErr "email" "invalid credentials"], db, sess)
    | some u =>
      if bcryptHash (jStrVal password) == u.passwordHash then
        (.ok 200 (.userOut (toPublicUser u)), db, some u.id)
      else
        (.err 401 [mkErr "password" "invalid credentials"], db, sess)

/-! ### Recipe and attempt payloads and their validation -/

/-- Body of a recipe create/update request (absent keys are `none`). -/
structure RecipePayload where
  title : Option JStr := none
  body : Option JStr := none
  feedback : Option JStr := none
  images : Option JArr := none
  meta : Option JMeta := none
  bestAttemptId : Option JBest := none
  /-- `payload.authorId || null`: `some a` is a truthy id-valued field,
  `none` is absent or falsy. -/
  authorId : Option Nat := none
deriving DecidableEq

/-- Body of an add-attempt request. -/
structure AttemptPayload where
  body : Option JStr := none
  feedback : Option JStr := none
  images : Option JArr := none
  meta : Option JMeta := none
deriving DecidableEq

/-- The `body`/`feedback`/`images`/`meta` checks shared verbatim by
create, PUT and PATCH: present-but-wrongly-typed values are rejected. -/
def fieldTypeErrors (body feedback : Option JStr) (images : Option JArr)
    (meta : Option JMeta) : List ApiErr :=
  (match body with
   | some (.str _) | none => []
   | some .notStr => [mkErr "body" "body must be a string"]) ++
  (match feedback with
   | some (.str _) | none => []
   | some .notStr => [mkErr "feedback" "feedback must be a string"]) ++
  (match images with
   | some (.arr _) | none => []
   | some .notArr => [mkErr "images" "images must be an array"]) ++
  (match meta with
   | some .obj | none => []
   | some .notObj => [mkErr "meta" "meta must be an object"])

/-- Validation of `POST /api/recipes`: title required and non-empty. -/
def createErrors (p : RecipePayload) : List ApiErr :=
  (if jIsNonEmptyString p.title then []
   else [mkErr "title" "title is required and must be a non-empty string"]) ++
  fieldTypeErrors p.body p.feedback p.images p.meta

/-- Validation shared by PUT and PATCH: title only checked when present. -/
def updateFieldErrors (p : RecipePayload) : List ApiErr :=
  (match p.title with
   | none => []
   | some t =>
     if jIsNonEmptyString (some t) then []
     else [mkErr "title" "title must be a non-empty string when provided"]) ++
  fieldTypeErrors p.body p.feedback p.images p.meta

/-- Validation of `PATCH /api/recipes/:id`: the PUT checks plus the
`bestAttemptId` check, which also resolves the referenced attempt. -/
def patchErrors (db : DB) (rid : Nat) (p : RecipePayload) : List ApiErr :=
  updateFieldErrors p ++
  (match p.bestAttemptId with
   | none => []
   | some .jnull => []
   | some .jbad =>
     [mkErr "bestAttemptId" "bestAttemptId must be a non-empty string or null"]
   | some (.jid aid) =>
     match lookupAttempt db.attempts aid with
     | some a =>
       if a.recipeId = rid then []
       else [mkErr "bestAttemptId" "attempt not found for this recipe"]
     | none => [mkErr "bestAttemptId" "attempt not found for this recipe"])

/-- Validation of `POST /api/recipes/:id/attempts`: body required. -/
def attemptErrors (p : AttemptPayload) : List ApiErr :=
  (if jIsNonEmptyString p.body then []
   else [mkErr "body" "attempt body is required and must be a non-empty string"]) ++
  fieldTypeErrors none p.feedback p.images p.meta

/-! ### Recipe routes -/

/-- Author binding on create: the session's user if one is bound,
otherwise `payload.authorId || null`. -/
def resolvedAuthor (sess : Option Nat) (p : RecipePayload) : Option Nat :=
  match sess with
  | some uid => some uid
  | none => p.authorId

/-- The `Recipe_authorId_fkey` foreign key holds for the author the create
would store (`true` when null). -/
def authorOK (db : DB) (sess : Option Nat) (p : RecipePayload) : Bool :=
  match resolvedAuthor sess p with
  | some a => db.users.any (fun u => u.id == a)
  | none => true

/-- `POST /api/recipes`: validate; create the recipe row plus its direct
images; if the stored body is non-empty after trim, additionally create an
attempt copying body/feedback/images, point `bestAttemptId` at it, and
re-fetch; answer 201 with the enriched recipe. -/
def postRecipes (db : DB) (sess : Option Nat) (p : RecipePayload) : Resp × DB :=
  let errors := createErrors p
  if errors ≠ [] then (.err 400 errors, db)
  else if ¬ authorOK db sess p then
    (.err 500 [mkErr "database" "Failed to create recipe"], db)
  else
    let rid := db.nextId
    let urls := jArrVal p.images
    let recipe : Recipe :=
      { id := rid, title := jsTrim (jStrVal p.title), body := jStrOrEmpty p.body
        feedback := jStrOrEmpty p.feedback, bestAttemptId := none
        authorId := resolvedAuthor sess p, createdAt := db.now }
    let db1 : DB :=
      { db with recipes := db.recipes ++ [recipe]
                images := db.images ++ urls.map (fun u => ⟨u, some rid, none⟩)
                nextId := db.nextId + 1, now := db.now + 1 }
    if jsTrim recipe.body ≠ "" then
      let aid := db1.nextId
      let attempt : Attempt :=
        { id := aid, body := recipe.body, feedback := recipe.feedback
          recipeId := rid, createdAt := db1.now }
      let db2 : DB :=
        { db1 with attempts := db1.attempts ++ [attempt]
                   images := db1.images ++ urls.map (fun u => ⟨u, none, some aid⟩)
                   nextId := db1.nextId + 1, now := db1.now + 1 }
      let db3 : DB :=
        { db2 with recipes := db2.recipes.map fun r =>
            if r.id = rid then { r with bestAttemptId := some aid } else r }
      match lookupRecipe db3.recipes rid with
      | some r2 => (.ok 201 (.recipeOut (enrichRecipe db3 r2)), db3)
      | none => (.err 500 [mkErr "database" "Failed to create recipe"], db3)
    else
      (.ok 201 (.recipeOut (enrichRecipe db1 recipe)), db1)

/-- The `q` filter of the list route, on a transformed recipe:
`(r.title && r.title.toLowerCase().includes(q)) || …` for body and
feedback; `q` is already lowercased. -/
def matchesQ (q : String) (v : RecipeView) : Bool :=
  (v.title != "" && jsIncludes (jsToLower v.title) q) ||
  (v.body != "" && jsIncludes (jsToLower v.body) q) ||
  (v.feedback != "" && jsIncludes (jsToLower v.feedback) q)

/-- Recipes ordered newest-created-first. -/
def byNewest (a b : Recipe) : Prop := b.createdAt ≤ a.createdAt

instance : DecidableRel byNewest := fun a b => Nat.decLe b.createdAt a.createdAt

instance : IsTotal Recipe byNewest := ⟨fun a b => Nat.le_total b.createdAt a.createdAt⟩

instance : IsTrans Recipe byNewest := ⟨fun _ _ _ h h' => Nat.le_trans h' h⟩

/-- `GET /api/recipes`: optionally restrict to the session's own recipes
(401 when `mine` is requested with no session), order newest first,
serialize, apply the `q` substring filter, enrich with `bestAttempt`. -/
def listRecipes (db : DB) (sess : Option Nat) (qRaw : String) (mine : Bool) :
    Resp × DB :=
  let q := jsToLower qRaw
  if mine && sess.isNone then
    (.err 401 [mkErr "auth" "authentication required"], db)
  else
    let base :=
      match mine, sess with
      | true, some uid => db.recipes.filter fun r => r.authorId == some uid
      | _, _ => db.recipes
    let list := (List.insertionSort byNewest base).map (recipeViewRaw db)
    let list2 := if q ≠ "" then list.filter (matchesQ q) else list
    let items := list2.map withBest
    (.ok 200 (.listOut items.length items), db)

/-- `GET /api/recipes/:id`. -/
def getRecipe (db : DB) (rid : Nat) : Resp × DB :=
  match lookupRecipe db.recipes rid with
  | none => (.err 404 [mkErr "id" "recipe not found"], db)
  | some r => (.ok 200 (.recipeOut (enrichRecipe db r)), db)

/-- The ownership gate shared by PUT/PATCH/DELETE:
`!recipe.authorId || recipe.authorId !== req.session.userId` (an id string
is truthy iff non-null, see header). -/
def notOwner (recipe : Recipe) (uid : Nat) : Bool :=
  recipe.authorId.isNone || recipe.authorId != some uid

/-- `PUT /api/recipes/:id` (full replace): auth, 404, ownership,
validation; then delete every direct image and recreate from the payload
(empty when the `images` key is absent), and replace the scalar fields,
absent ones defaulting to the fetched row's values. -/
def putRecipe (db : DB) (sess : Option Nat) (rid : Nat) (p : RecipePayload) :
    Resp × DB :=
  match sess with
  | none => (.err 401 [mkErr "auth" "authentication required"], db)
  | some uid =>
    match lookupRecipe db.recipes rid with
    | none => (.err 404 [mkErr "id" "recipe not found"], db)
    | some recipe =>
      if notOwner recipe uid then (.err 403 [mkErr "auth" "forbidden"], db)
      else
        let errors := updateFieldErrors p
        if errors ≠ [] then (.err 400 errors, db)
        else
          let newTitle := match p.title with
            | some t => jsTrim (jStrVal (some t))
            | none => recipe.title
          let newBody := match p.body with
            | some b => jStrVal (some b)
            | none => recipe.body
          let newFeedback := match p.feedback with
            | some f => jStrVal (some f)
            | none => recipe.feedback
          let updated : Recipe :=
            { recipe with title := newTitle, body := newBody, feedback := newFeedback }
          let db1 : DB :=
            { db with
                recipes := db.recipes.map fun r => if r.id = rid then updated else r
                images :=
                  db.images.filter (fun i => i.recipeId != some rid) ++
                  (jArrVal p.images).map (fun u => ⟨u, some rid, none⟩) }
          (.ok 200 (.recipeOut (enrichRecipe db1 updated)), db1)

/-- The sparse update PATCH applies to the target row: present payload
fields replace the row's, `bestAttemptId: null` clears the pointer (the
`jbad` arm is unreachable behind validation and keeps the row's value). -/
def applyPatch (p : RecipePayload) (r : Recipe) : Recipe :=
  { r with
      title := match p.title with
        | some t => jsTrim (jStrVal (some t))
        | none => r.title
      body := match p.body with
        | some b => jStrVal (some b)
        | none => r.body
      feedback := match p.feedback with
        | some f => jStrVal (some f)
        | none => r.feedback
      bestAttemptId := match p.bestAttemptId with
        | some .jnull => none
        | some (.jid a) => some a
        | some .jbad => r.bestAttemptId
        | none => r.bestAttemptId }

/-- `PATCH /api/recipes/:id`: auth, 404, ownership, validation (including
the best-attempt membership check); images are only replaced when the
`images` key is present. -/
def patchRecipe (db : DB) (sess : Option Nat) (rid : Nat) (p : RecipePayload) :
    Resp × DB :=
  match sess with
  | none => (.err 401 [mkErr "auth" "authentication required"], db)
  | some uid =>
    match lookupRecipe db.recipes rid with
    | none => (.err 404 [mkErr "id" "recipe not found"], db)
    | some recipe =>
      if notOwner recipe uid then (.err 403 [mkErr "auth" "forbidden"], db)
      else
        let errors := patchErrors db rid p
        if errors ≠ [] then (.err 400 errors, db)
        else
          let newImages :=
            match p.images with
            | some imgs =>
              db.images.filter (fun i => i.recipeId != some rid) ++
              (jArrVal (some imgs)).map (fun u => (⟨u, some rid, none⟩ : Image))
            | none => db.images
          let db1 : DB :=
            { db with
                recipes := db.recipes.map fun r => if r.id = rid then applyPatch p r else r
                images := newImages }
          (.ok 200 (.recipeOut (enrichRecipe db1 (applyPatch p recipe))), db1)

/-- `DELETE /api/recipes/:id`: auth, 404, ownership; then in one
transaction delete the images of the recipe's attempts, those attempts,
the recipe's direct images, and the recipe row; answer 204. -/
def deleteRecipe (db : DB) (sess : Option Nat) (rid : Nat) : Resp × DB :=
  match sess with
  | none => (.err 401 [mkErr "auth" "authentication required"], db)
  | some uid =>
    match lookupRecipe db.recipes rid with
    | none => (.err 404 [mkErr "id" "recipe not found"], db)
    | some recipe =>
      if notOwner recipe uid then (.err 403 [mkErr "auth" "forbidden"], db)
      else
        let attemptIds :=
          (db.attempts.filter fun a => a.recipeId == rid).map (·.id)
        let db1 : DB :=
          { db with
              images :=
                (db.images.filter fun i =>
                  match i.attemptId with
                  | some a => !(attemptIds.contains a)
                  | none => true).filter fun i => i.recipeId != some rid
              attempts := db.attempts.filter fun a => !(attemptIds.contains a.id)
              recipes := db.recipes.filter fun r => r.id != rid }
        (.ok 204 .empty, db1)

/-! ### Attempt routes -/

/-- `POST /api/recipes/:id/attempts`: 404 when the recipe is absent,
validate, append the attempt and its images, answer 201 with the attempt. -/
def postAttempt (db : DB) (rid : Nat) (p : AttemptPayload) : Resp × DB :=
  match lookupRecipe db.recipes rid with
  | none => (.err 404 [mkErr "id" "recipe not found"], db)
  | some _ =>
    let errors := attemptErrors p
    if errors ≠ [] then (.err 400 errors, db)
    else
      let aid := db.nextId
      let attempt : Attempt :=
        { id := aid, body := jStrVal p.body, feedback := jStrOrEmpty p.feedback
          recipeId := rid, createdAt := db.now }
      let db1 : DB :=
        { db with attempts := db.attempts ++ [attempt]
                  images := db.images ++ (jArrVal p.images).map (fun u => ⟨u, none, some aid⟩)
                  nextId := db.nextId + 1, now := db.now + 1 }
      (.ok 201 (.attemptOut (attemptView db1 attempt)), db1)

/-- `POST /api/recipes/:id/attempts/:attemptId/choose`: 404 when the
recipe is absent; 400 when the attempt is absent or belongs to another
recipe; otherwise point `bestAttemptId` at it and answer the enriched
recipe. -/
def chooseBest (db : DB) (rid aid : Nat) : Resp × DB :=
  match lookupRecipe db.recipes rid with
  | none => (.err 404 [mkErr "id" "recipe not found"], db)
  | some recipe =>
    let ok := match lookupAttempt db.attempts aid with
      | some att => att.recipeId == rid
      | none => false
    if ok then
      let db1 : DB :=
        { db with recipes := db.recipes.map fun r =>
            if r.id = rid then { r with bestAttemptId := some aid } else r }
      (.ok 200 (.recipeOut (enrichRecipe db1 { recipe with bestAttemptId := some aid })), db1)
    else
      (.err 400 [mkErr "attemptId" "attempt not found for this recipe"], db)

/-! ### Upload route -/

/-- `multer` size ceiling: `limits: { fileSize: 10 * 1024 * 1024 }`. -/
def uploadSizeLimit : Nat := 10 * 1024 * 1024

/-- `POST /api/uploads`.  `stored` is the set of files under
`public/uploads`; `file` is the size of the multipart file, if one is
attached; `codecOk` abstracts whether the sharp pipeline succeeds;
`filename` is the generated time/random name and `base` the
scheme-and-host prefix.  A file exceeding the ceiling makes `multer`
abort the middleware with a `MulterError` that no error middleware
catches, so the framework's default error handler answers it (status
500, non-JSON); the route handler itself only ever runs below the
ceiling. -/
def postUpload (stored : List String) (file : Option Nat) (codecOk : Bool)
    (filename base : String) : Resp × List String :=
  match file with
  | some sz =>
    if sz > uploadSizeLimit then (.fatal 500, stored)
    else if codecOk then
      (.ok 200 (.urlOut (base ++ "/uploads/" ++ filename)), stored ++ [filename])
    else (.err 500 [⟨none, "Upload failed"⟩], stored)
  | none => (.err 400 [mkErr "file" "No file uploaded"], stored)

/-! ### Well-formedness and the best-attempt invariant -/

/-- The recipe's `bestAttemptId`, if set, resolves among the given attempt
rows to one owned by this recipe. -/
def bestOK (attempts : List Attempt) (r : Recipe) : Bool :=
  match r.bestAttemptId with
  | none => true
  | some bid => attempts.any fun a => a.id == bid && a.recipeId == r.id

/-- Spec §3/§8 invariant: every non-null `Recipe.bestAttemptId` references
an `Attempt` whose `recipeId` equals that recipe's id. -/
def BestInv (db : DB) : Prop := ∀ r ∈ db.recipes, bestOK db.attempts r = true

/-- Database well-formedness: primary keys are distinct and every
allocated id (and every stored reference to one) is below the id
generator's counter — exactly what a cuid generator plus primary keys
guarantee. -/
def WF (db : DB) : Prop :=
  (db.recipes.map (·.id)).Nodup ∧
  (db.attempts.map (·.id)).Nodup ∧
  (∀ r ∈ db.recipes, r.id < db.nextId) ∧
  (∀ a ∈ db.attempts, a.id < db.nextId ∧ a.recipeId < db.nextId) ∧
  (∀ i ∈ db.images, i.recipeId.all (· < db.nextId) = true ∧
                    i.attemptId.all (· < db.nextId) = true) ∧
  (∀ u ∈ db.users, u.id < db.nextId)

instance (db : DB) : Decidable (BestInv db) := by
  unfold BestInv
  infer_instance

instance (db : DB) : Decidable (WF db) := by
  unfold WF
  infer_instance

/-! ### Lookup lemmas -/

theorem lookupRecipe_some {l : List Recipe} {i : Nat} {r : Recipe}
    (h : lookupRecipe l i = some r) : r ∈ l ∧ r.id = i := by
  induction l with
  | nil => simp [lookupRecipe] at h
  | cons x xs ih =>
    by_cases hx : x.id = i
    · simp [lookupRecipe, hx] at h
      subst h
      exact ⟨List.mem_cons_self x xs, hx⟩
    · simp [lookupRecipe, hx] at h
      rcases ih h with ⟨hm, hid⟩
      exact ⟨List.mem_cons_of_mem x hm, hid⟩

theorem lookupRecipe_eq_none {l : List Recipe} {i : Nat}
    (h : ∀ r ∈ l, r.id ≠ i) : lookupRecipe l i = none := by
  induction l with
  | nil => rfl
  | cons x xs ih =>
    simp only [lookupRecipe, if_neg (h x (List.mem_cons_self x xs))]
    exact ih fun r hr => h r (List.mem_cons_of_mem x hr)

theorem lookupRecipe_append_left {l₁ l₂ : List Recipe} {i : Nat}
    (h : ∀ r ∈ l₁, r.id ≠ i) :
    lookupRecipe (l₁ ++ l₂) i = lookupRecipe l₂ i := by
  induction l₁ with
  | nil => rfl
  | cons x xs ih =>
    simp only [List.cons_append, lookupRecipe, if_neg (h x (List.mem_cons_self x xs))]
    exact ih fun r hr => h r (List.mem_cons_of_mem x hr)

theorem lookupAttempt_some {l : List Attempt} {i : Nat} {a : Attempt}
    (h : lookupAttempt l i = some a) : a ∈ l ∧ a.id = i := by
  induction l with
  | nil => simp [lookupAttempt] at h
  | cons x xs ih =>
    by_cases hx : x.id = i
    · simp [lookupAttempt, hx] at h
      subst h
      exact ⟨List.mem_cons_self x xs, hx⟩
    · simp [lookupAttempt, hx] at h
      rcases ih h with ⟨hm, hid⟩
      exact ⟨List.mem_cons_of_mem x hm, hid⟩

theorem lookupAttempt_eq_none {l : List Attempt} {i : Nat}
    (h : ∀ a ∈ l, a.id ≠ i) : lookupAttempt l i = none := by
  induction l with
  | nil => rfl
  | cons x xs ih =>
    simp only [lookupAttempt, if_neg (h x (List.mem_cons_self x xs))]
    exact ih fun a ha => h a (List.mem_cons_of_mem x ha)

/-! ### bestOK helper lemmas -/

theorem bestOK_append {l l' : List Attempt} {r : Recipe}
    (h : bestOK l r = true) : bestOK (l ++ l') r = true := by
  unfold bestOK at h ⊢
  cases hb : r.bestAttemptId with
  | none => rfl
  | some bid =>
    simp only [hb] at h ⊢
    simp only [List.any_append, h, Bool.true_or]

theorem bestOK_congr {l : List Attempt} {r r' : Recipe}
    (hid : r'.id = r.id) (hb : r'.bestAttemptId = r.bestAttemptId)
    (h : bestOK l r = true) : bestOK l r' = true := by
  unfold bestOK at h ⊢
  rw [hb, hid]
  exact h

theorem bestOK_of_mem {l : List Attempt} {r : Recipe} {a : Attempt}
    (ha : a ∈ l) (hid : r.bestAttemptId = some a.id) (hr : a.recipeId = r.id) :
    bestOK l r = true := by
  unfold bestOK
  rw [hid]
  exact List.any_eq_true.mpr ⟨a, ha, by simp [hr]⟩

theorem map_setBest_fresh (l : List Recipe) (aid rid : Nat)
    (h : ∀ r ∈ l, r.id ≠ rid) :
    l.map (fun r => if r.id = rid then { r with bestAttemptId := some aid } else r) = l := by
  induction l with
  | nil => rfl
  | cons x xs ih =>
    simp only [List.map_cons, if_neg (h x (List.mem_cons_self x xs))]
    rw [ih fun r hr => h r (List.mem_cons_of_mem x hr)]

theorem postRecipes_spec (db : DB) (sess : Option Nat) (p : RecipePayload)
    (hWF : WF db) (hval : createErrors p = []) (hfk : authorOK db sess p = true) :
    ∃ v : RecipeView,
      (postRecipes db sess p).1 = .ok 201 (.recipeOut v) ∧
      v.id = db.nextId ∧
      v.title = jsTrim (jStrVal p.title) ∧
      v.body = jStrOrEmpty p.body ∧
      v.feedback = jStrOrEmpty p.feedback ∧
      v.authorId = resolvedAuthor sess p ∧
      v.images = jArrVal p.images ∧
      (∃ r', lookupRecipe (postRecipes db sess p).2.recipes db.nextId = some r' ∧
        r'.authorId = resolvedAuthor sess p ∧
        r'.bestAttemptId = v.bestAttemptId ∧ r'.body = jStrOrEmpty p.body) ∧
      (jsTrim (jStrOrEmpty p.body) ≠ "" →
        ∃ av : AttemptView,
          v.bestAttempt = some av ∧ v.bestAttemptId = some av.id ∧
          v.attempts = [av] ∧
          av.body = jStrOrEmpty p.body ∧ av.feedback = jStrOrEmpty p.feedback ∧
          av.images = jArrVal p.images ∧ av.recipeId = db.nextId ∧
          (postRecipes db sess p).2.attempts =
            db.attempts ++ [⟨av.id, av.body, av.feedback, db.nextId, db.now + 1⟩]) ∧
      (jsTrim (jStrOrEmpty p.body) = "" →
        v.bestAttempt = none ∧ v.bestAttemptId = none ∧ v.attempts = [] ∧
        (postRecipes db sess p).2.attempts = db.attempts) := by
  obtain ⟨hrn, han, hrlt, halt, hilt, hult⟩ := hWF
  have hImgR : db.images.filter (fun i => i.recipeId == some db.nextId) = [] := by
    rw [List.filter_eq_nil_iff]
    intro i hi
    cases hri : i.recipeId with
    | none => simp
    | some x =>
      have hx : x < db.nextId := by
        have := (hilt i hi).1
        rw [hri] at this
        simpa [Option.all] using this
      simp [beq_iff_eq]
      omega
  have hImgA : db.images.filter (fun i => i.attemptId == some (db.nextId + 1)) = [] := by
    rw [List.filter_eq_nil_iff]
    intro i hi
    cases hai : i.attemptId with
    | none => simp
    | some x =>
      have hx : x < db.nextId := by
        have := (hilt i hi).2
        rw [hai] at this
        simpa [Option.all] using this
      simp [beq_iff_eq]
      omega
  have hAttR : db.attempts.filter (fun a => a.recipeId == db.nextId) = [] := by
    rw [List.filter_eq_nil_iff]
    intro a ha
    have := (halt a ha).2
    simp [beq_iff_eq]
    omega
  have hfresh : ∀ r ∈ db.recipes, r.id ≠ db.nextId := fun r hr => Nat.ne_of_lt (hrlt r hr)
  simp only [postRecipes, hval, ne_eq, not_true_eq_false, if_false, hfk,
    not_false_eq_true, if_true]
  by_cases hbody : jsTrim (jStrOrEmpty p.body) = ""
  · simp only [hbody, not_true_eq_false, if_false]
    refine ⟨_, rfl, rfl, rfl, rfl, rfl, rfl, ?_, ?_, ?_, ?_⟩
    · simp only [enrichRecipe, recipeViewRaw, withBest, recipeImageUrls, List.filter_append,
        hImgR, List.nil_append]
      rw [List.filter_eq_self.mpr]
      · rw [List.map_map]
        exact (List.map_congr_left fun a _ => rfl).trans (List.map_id _)
      · intro i hi
        rcases List.mem_map.mp hi with ⟨u, _, rfl⟩
        simp
    · rw [lookupRecipe_append_left hfresh]
      simp only [lookupRecipe, eq_self_iff_true, if_true]
      exact ⟨_, rfl, rfl, rfl, rfl⟩
    · intro h
      exact h.elim
    · intro _
      simp [enrichRecipe, recipeViewRaw, withBest, recipeAttemptViews, hAttR]
  · simp only [if_pos hbody, List.map_append, map_setBest_fresh db.recipes (db.nextId + 1) db.nextId hfresh,
      List.map_cons, List.map_nil, lookupRecipe_append_left hfresh, lookupRecipe,
      eq_self_iff_true, if_true]
    have h1 : List.filter (fun i => i.recipeId == some db.nextId)
        (List.map (fun u => ({ url := u, recipeId := some db.nextId, attemptId := none } : Image))
          (jArrVal p.images)) =
        List.map (fun u => ({ url := u, recipeId := some db.nextId, attemptId := none } : Image))
          (jArrVal p.images) := by
      apply List.filter_eq_self.mpr
      intro i hi
      rcases List.mem_map.mp hi with ⟨u, _, rfl⟩
      simp
    have h2 : List.filter (fun i => i.recipeId == some db.nextId)
        (List.map (fun u => ({ url := u, recipeId := none, attemptId := some (db.nextId + 1) } : Image))
          (jArrVal p.images)) = [] := by
      apply List.filter_eq_nil_iff.mpr
      intro i hi
      rcases List.mem_map.mp hi with ⟨u, _, rfl⟩
      simp
    have h3 : List.filter (fun i => i.attemptId == some (db.nextId + 1))
        (List.map (fun u => ({ url := u, recipeId := some db.nextId, attemptId := none } : Image))
          (jArrVal p.images)) = [] := by
      apply List.filter_eq_nil_iff.mpr
      intro i hi
      rcases List.mem_map.mp hi with ⟨u, _, rfl⟩
      simp
    have h4 : List.filter (fun i => i.attemptId == some (db.nextId + 1))
        (List.map (fun u => ({ url := u, recipeId := none, attemptId := some (db.nextId + 1) } : Image))
          (jArrVal p.images)) =
        List.map (fun u => ({ url := u, recipeId := none, attemptId := some (db.nextId + 1) } : Image))
          (jArrVal p.images) := by
      apply List.filter_eq_self.mpr
      intro i hi
      rcases List.mem_map.mp hi with ⟨u, _, rfl⟩
      simp
    refine ⟨_, rfl, rfl, rfl, rfl, rfl, rfl, ?_, ?_, ?_, ?_⟩
    · simp only [enrichRecipe, recipeViewRaw, withBest, recipeImageUrls, List.filter_append,
        hImgR, h1, h2, List.nil_append, List.append_nil, List.map_map]
      exact (List.map_congr_left fun a _ => rfl).trans (List.map_id _)
    · exact ⟨_, rfl, rfl, rfl, rfl⟩
    · intro _
      simp only [enrichRecipe, recipeViewRaw, withBest, recipeAttemptViews, attemptView,
        attemptImageUrls, List.filter_append, hAttR, hImgA, h3, h4, List.nil_append,
        List.append_nil, List.filter_cons, List.filter_nil, beq_self_eq_true, if_true,
        List.map_cons, List.map_nil, List.map_map, List.find?_cons, beq_self_eq_true]
      have hmapu : List.map ((fun x : Image => x.url) ∘ fun u =>
          ({ url := u, recipeId := none, attemptId := some (db.nextId + 1) } : Image))
          (jArrVal p.images) = jArrVal p.images :=
        (List.map_congr_left fun a _ => rfl).trans (List.map_id _)
      simp only [hmapu]
      exact ⟨_, rfl, rfl, rfl, rfl, rfl, rfl, rfl, rfl⟩
    · intro h
      exact absurd h hbody

theorem bestOK_elim {l : List Attempt} {r : Recipe} (h : bestOK l r = true) :
    r.bestAttemptId = none ∨ ∃ a ∈ l, r.bestAttemptId = some a.id ∧ a.recipeId = r.id := by
  unfold bestOK at h
  cases hb : r.bestAttemptId with
  | none => exact Or.inl rfl
  | some bid =>
    simp only [hb] at h
    rcases List.any_eq_true.mp h with ⟨a, ha, hpa⟩
    simp only [Bool.and_eq_true, beq_iff_eq] at hpa
    exact Or.inr ⟨a, ha, by simp [hb, hpa.1], hpa.2⟩

theorem bestInv_register (db : DB) (sess : Option Nat) (email password name : Option JStr)
    (hInv : BestInv db) : BestInv (register db sess email password name).2.1 := by
  unfold register
  dsimp only
  split
  · exact hInv
  · split
    · exact hInv
    · split
      · exact hInv
      · intro r hr
        exact hInv r hr

theorem bestInv_login (db : DB) (sess : Option Nat) (email password : Option JStr)
    (hInv : BestInv db) : BestInv (login db sess email password).2.1 := by
  unfold login
  dsimp only
  split
  · exact hInv
  · split
    · exact hInv
    · split
      · exact hInv
      · exact hInv

theorem bestInv_postAttempt (db : DB) (rid : Nat) (p : AttemptPayload)
    (hInv : BestInv db) : BestInv (postAttempt db rid p).2 := by
  unfold postAttempt
  dsimp only
  split
  · exact hInv
  · split
    · exact hInv
    · intro r hr
      exact bestOK_append (hInv r hr)

theorem bestInv_putRecipe (db : DB) (sess : Option Nat) (rid : Nat) (p : RecipePayload)
    (hInv : BestInv db) : BestInv (putRecipe db sess rid p).2 := by
  unfold putRecipe
  cases sess with
  | none => exact hInv
  | some uid =>
    dsimp only
    cases hlk : lookupRecipe db.recipes rid with
    | none => exact hInv
    | some recipe =>
      dsimp only
      split
      · exact hInv
      · split
        · exact hInv
        · intro r hr
          rcases List.mem_map.mp hr with ⟨r0, hr0, rfl⟩
          by_cases h0 : r0.id = rid
          · rw [if_pos h0]
            exact bestOK_congr rfl rfl (hInv recipe (lookupRecipe_some hlk).1)
          · rw [if_neg h0]
            exact hInv r0 hr0

theorem bestInv_patchRecipe (db : DB) (sess : Option Nat) (rid : Nat) (p : RecipePayload)
    (hInv : BestInv db) : BestInv (patchRecipe db sess rid p).2 := by
  unfold patchRecipe
  cases sess with
  | none => exact hInv
  | some uid =>
    dsimp only
    cases hlk : lookupRecipe db.recipes rid with
    | none => exact hInv
    | some recipe =>
      dsimp only
      split
      · exact hInv
      · by_cases herr : patchErrors db rid p = []
        · rw [if_neg (not_not_intro herr)]
          intro r hr
          dsimp only at hr ⊢
          rcases List.mem_map.mp hr with ⟨r0, hr0, rfl⟩
          by_cases h0 : r0.id = rid
          · rw [if_pos h0]
            cases hpb : p.bestAttemptId with
            | none =>
              exact @bestOK_congr db.attempts r0 (applyPatch p r0) rfl
                (by simp [applyPatch, hpb]) (hInv r0 hr0)
            | some jb =>
              cases jb with
              | jnull =>
                unfold bestOK
                simp [applyPatch, hpb]
              | jbad =>
                exact @bestOK_congr db.attempts r0 (applyPatch p r0) rfl
                  (by simp [applyPatch, hpb]) (hInv r0 hr0)
              | jid aid =>
                have hbest : ∃ a, lookupAttempt db.attempts aid = some a ∧ a.recipeId = rid := by
                  unfold patchErrors at herr
                  rcases List.append_eq_nil.mp herr with ⟨_, h2⟩
                  rw [hpb] at h2
                  dsimp only at h2
                  cases hla : lookupAttempt db.attempts aid with
                  | none =>
                    rw [hla] at h2
                    dsimp only at h2
                    simp at h2
                  | some a =>
                    rw [hla] at h2
                    dsimp only at h2
                    by_cases hr2 : a.recipeId = rid
                    · exact ⟨a, rfl, hr2⟩
                    · rw [if_neg hr2] at h2
                      simp at h2
                rcases hbest with ⟨a, hla, har⟩
                refine bestOK_of_mem (lookupAttempt_some hla).1 ?_ ?_
                · simp [applyPatch, hpb, (lookupAttempt_some hla).2]
                · simp [applyPatch, har, h0]
          · rw [if_neg h0]
            exact hInv r0 hr0
        · rw [if_pos herr]
          exact hInv

theorem bestInv_deleteRecipe (db : DB) (sess : Option Nat) (rid : Nat)
    (hWF : WF db) (hInv : BestInv db) : BestInv (deleteRecipe db sess rid).2 := by
  obtain ⟨hrn, han, hrlt, halt, hilt, hult⟩ := hWF
  unfold deleteRecipe
  cases sess with
  | none => exact hInv
  | some uid =>
    dsimp only
    cases hlk : lookupRecipe db.recipes rid with
    | none => exact hInv
    | some recipe =>
      dsimp only
      split
      · exact hInv
      · intro r hr
        dsimp only at hr ⊢
        rw [List.mem_filter] at hr
        obtain ⟨hrmem, hrne⟩ := hr
        have hrid : r.id ≠ rid := by simpa using hrne
        rcases bestOK_elim (hInv r hrmem) with hnone | ⟨a, ha, hid, harr⟩
        · unfold bestOK
          simp [hnone]
        · refine bestOK_of_mem ?_ hid harr
          rw [List.mem_filter]
          refine ⟨ha, ?_⟩
          have hnm : a.id ∉ (db.attempts.filter fun x => x.recipeId == rid).map (·.id) := by
            intro hmem
            rcases List.mem_map.mp hmem with ⟨b, hb, hbid⟩
            rw [List.mem_filter] at hb
            have hbrid : b.recipeId = rid := by simpa using hb.2
            have hab : b = a := List.inj_on_of_nodup_map han hb.1 ha hbid
            rw [hab] at hbrid
            rw [harr] at hbrid
            exact hrid hbrid
          simpa using hnm

theorem bestInv_chooseBest (db : DB) (rid aid : Nat)
    (hInv : BestInv db) : BestInv (chooseBest db rid aid).2 := by
  unfold chooseBest
  cases hlk : lookupRecipe db.recipes rid with
  | none => exact hInv
  | some recipe =>
    dsimp only
    cases hla : lookupAttempt db.attempts aid with
    | none =>
      rw [if_neg Bool.false_ne_true]
      exact hInv
    | some att =>
      by_cases hrec : (att.recipeId == rid) = true
      · rw [if_pos hrec]
        intro r hr
        dsimp only at hr ⊢
        rcases List.mem_map.mp hr with ⟨r0, hr0, rfl⟩
        by_cases h0 : r0.id = rid
        · rw [if_pos h0]
          refine bestOK_of_mem (lookupAttempt_some hla).1 ?_ ?_
          · simp [(lookupAttempt_some hla).2]
          · have hrr := beq_iff_eq.mp hrec
            simp [hrr, h0]
        · rw [if_neg h0]
          exact hInv r0 hr0
      · rw [if_neg hrec]
        exact hInv

theorem bestInv_postRecipes (db : DB) (sess : Option Nat) (p : RecipePayload)
    (hWF : WF db) (hInv : BestInv db) : BestInv (postRecipes db sess p).2 := by
  obtain ⟨hrn, han, hrlt, halt, hilt, hult⟩ := hWF
  unfold postRecipes
  dsimp only
  split
  · exact hInv
  · split
    · exact hInv
    · split
      · split
        all_goals
          intro r hr
          dsimp only at hr ⊢
          rcases List.mem_map.mp hr with ⟨r0, hr0, rfl⟩
          rcases List.mem_append.mp hr0 with h | h
          · rw [if_neg (Nat.ne_of_lt (hrlt r0 h))]
            exact bestOK_append (hInv r0 h)
          · rcases List.mem_singleton.mp h with rfl
            rw [if_pos rfl]
            exact bestOK_of_mem
              (List.mem_append.mpr (Or.inr (List.mem_singleton.mpr rfl))) rfl rfl
      · intro r hr
        dsimp only at hr ⊢
        rcases List.mem_append.mp hr with h | h
        · exact hInv r h
        · rcases List.mem_singleton.mp h with rfl
          rfl

/-! ### Rejection of invalid best-attempt ids (PATCH and choose) -/

theorem patchRecipe_rejects_foreign (db : DB) (uid rid aid : Nat) (recipe : Recipe)
    (p : RecipePayload)
    (hlk : lookupRecipe db.recipes rid = some recipe)
    (hown : recipe.authorId = some uid)
    (hpb : p.bestAttemptId = some (.jid aid))
    (hbad : ∀ a ∈ db.attempts, a.id = aid → a.recipeId ≠ rid) :
    (patchRecipe db (some uid) rid p).1.status = 400 ∧
    (patchRecipe db (some uid) rid p).2 = db := by
  have hng : notOwner recipe uid = false := by
    simp [notOwner, hown]
  have herr : patchErrors db rid p ≠ [] := by
    unfold patchErrors
    rw [hpb]
    intro hc
    rcases List.append_eq_nil.mp hc with ⟨_, h2⟩
    dsimp only at h2
    cases hla : lookupAttempt db.attempts aid with
    | none =>
      rw [hla] at h2
      simp at h2
    | some a =>
      rw [hla] at h2
      dsimp only at h2
      rcases lookupAttempt_some hla with ⟨hmem, hid⟩
      rw [if_neg (hbad a hmem hid)] at h2
      simp at h2
  unfold patchRecipe
  rw [hlk]
  dsimp only
  rw [if_neg (by simp [hng]), if_pos herr]
  exact ⟨rfl, rfl⟩

theorem chooseBest_rejects_foreign (db : DB) (rid aid : Nat) (recipe : Recipe)
    (hlk : lookupRecipe db.recipes rid = some recipe)
    (hbad : ∀ a ∈ db.attempts, a.id = aid → a.recipeId ≠ rid) :
    chooseBest db rid aid =
      (.err 400 [mkErr "attemptId" "attempt not found for this recipe"], db) := by
  unfold chooseBest
  rw [hlk]
  dsimp only
  cases hla : lookupAttempt db.attempts aid with
  | none =>
    dsimp only
    rw [if_neg Bool.false_ne_true]
  | some att =>
    dsimp only
    rcases lookupAttempt_some hla with ⟨hmem, hid⟩
    have hf : (att.recipeId == rid) = false := by
      simp [hbad att hmem hid]
    rw [hf, if_neg Bool.false_ne_true]

/-- The full content of the best-attempt invariant claim, at one store:
the two setters reject an attempt id that does not resolve to an attempt
of the target recipe with a 400 and leave the store untouched, and every
mutating operation of the API preserves the invariant. -/
def bestInvClaim (db : DB) : Prop :=
  (∀ uid rid aid (recipe : Recipe) (p : RecipePayload),
      lookupRecipe db.recipes rid = some recipe →
      recipe.authorId = some uid →
      p.bestAttemptId = some (.jid aid) →
      (∀ a ∈ db.attempts, a.id = aid → a.recipeId ≠ rid) →
      (patchRecipe db (some uid) rid p).1.status = 400 ∧
      (patchRecipe db (some uid) rid p).2 = db) ∧
  (∀ rid aid (recipe : Recipe),
      lookupRecipe db.recipes rid = some recipe →
      (∀ a ∈ db.attempts, a.id = aid → a.recipeId ≠ rid) →
      chooseBest db rid aid =
        (.err 400 [mkErr "attemptId" "attempt not found for this recipe"], db)) ∧
  (∀ sess p, BestInv (postRecipes db sess p).2) ∧
  (∀ sess rid p, BestInv (putRecipe db sess rid p).2) ∧
  (∀ sess rid p, BestInv (patchRecipe db sess rid p).2) ∧
  (∀ sess rid, BestInv (deleteRecipe db sess rid).2) ∧
  (∀ rid p, BestInv (postAttempt db rid p).2) ∧
  (∀ rid aid, BestInv (chooseBest db rid aid).2) ∧
  (∀ sess email pw nm, BestInv (register db sess email pw nm).2.1) ∧
  (∀ sess email pw, BestInv (login db sess email pw).2.1)

/-- C1: if a recipe's `bestAttemptId` is non-null it references an
existing attempt of that same recipe, and both operations that set it —
PATCH with a non-null `bestAttemptId` and the choose route — answer 400
and leave the store unchanged when the id does not resolve to an attempt
of that recipe, so every operation of the API preserves the invariant. -/
theorem bestAttemptId_invariant (db : DB) (hWF : WF db) (hInv : BestInv db) :
    bestInvClaim db := by
  refine ⟨?_, ?_, ?_, ?_, ?_, ?_, ?_, ?_, ?_, ?_⟩
  · intro uid rid aid recipe p hlk hown hpb hbad
    exact patchRecipe_rejects_foreign db uid rid aid recipe p hlk hown hpb hbad
  · intro rid aid recipe hlk hbad
    exact chooseBest_rejects_foreign db rid aid recipe hlk hbad
  · intro sess p
    exact bestInv_postRecipes db sess p hWF hInv
  · intro sess rid p
    exact bestInv_putRecipe db sess rid p hInv
  · intro sess rid p
    exact bestInv_patchRecipe db sess rid p hInv
  · intro sess rid
    exact bestInv_deleteRecipe db sess rid hWF hInv
  · intro rid p
    exact bestInv_postAttempt db rid p hInv
  · intro rid aid
    exact bestInv_chooseBest db rid aid hInv
  · intro sess email pw nm
    exact bestInv_register db sess email pw nm hInv
  · intro sess email pw
    exact bestInv_login db sess email pw hInv

/-! ### Delete cascade (C2) -/

/-- The full content of the delete-cascade claim at one store: an owner
delete answers 204 and, in the one transactional state change, removes
every attempt of the recipe, every image of those attempts, every direct
image of the recipe and the recipe row — and nothing else — after which a
GET of the id is a 404. -/
def deleteCascadeClaim (db : DB) (uid rid : Nat) : Prop :=
  let res := deleteRecipe db (some uid) rid
  res.1 = .ok 204 .empty ∧
  (∀ a ∈ res.2.attempts, a.recipeId ≠ rid) ∧
  (∀ i ∈ res.2.images, i.recipeId ≠ some rid) ∧
  (∀ i ∈ res.2.images, ∀ a ∈ db.attempts, a.recipeId = rid → i.attemptId ≠ some a.id) ∧
  (∀ r ∈ res.2.recipes, r.id ≠ rid) ∧
  (getRecipe res.2 rid).1 = .err 404 [mkErr "id" "recipe not found"] ∧
  (∀ r ∈ db.recipes, r.id ≠ rid → r ∈ res.2.recipes) ∧
  (∀ a ∈ db.attempts, a.recipeId ≠ rid → a ∈ res.2.attempts) ∧
  (∀ i ∈ db.images, i.recipeId ≠ some rid →
     (∀ a ∈ db.attempts, a.recipeId = rid → i.attemptId ≠ some a.id) → i ∈ res.2.images)

/-- C2: DELETE of an owned recipe removes, atomically (one state
transition, modelling the `prisma.$transaction`), its attempts, their
images, its direct images and the row itself, answers 204, leaves
everything else in place, and a subsequent GET of the id is a 404. -/
theorem deleteRecipe_cascade (db : DB) (uid rid : Nat) (recipe : Recipe)
    (hWF : WF db)
    (hlk : lookupRecipe db.recipes rid = some recipe)
    (hown : recipe.authorId = some uid) :
    deleteCascadeClaim db uid rid := by
  obtain ⟨hrn, han, hrlt, halt, hilt, hult⟩ := hWF
  have hng : notOwner recipe uid = false := by
    simp [notOwner, hown]
  unfold deleteCascadeClaim
  unfold deleteRecipe
  rw [hlk]
  dsimp only
  rw [if_neg (by simp [hng])]
  dsimp only
  refine ⟨rfl, ?_, ?_, ?_, ?_, ?_, ?_, ?_, ?_⟩
  · intro a ha
    rw [List.mem_filter] at ha
    obtain ⟨hmem, hb⟩ := ha
    intro hrid
    have hin : a.id ∈ (db.attempts.filter fun x => x.recipeId == rid).map (·.id) :=
      List.mem_map.mpr ⟨a, List.mem_filter.mpr ⟨hmem, by simp [hrid]⟩, rfl⟩
    rw [Bool.not_eq_true'] at hb
    exact absurd hin (by simpa using hb)
  · intro i hi
    rw [List.mem_filter] at hi
    simpa using hi.2
  · intro i hi b hbmem hbrid
    rw [List.mem_filter] at hi
    obtain ⟨hi1, _⟩ := hi
    rw [List.mem_filter] at hi1
    obtain ⟨_, hcond⟩ := hi1
    cases hia : i.attemptId with
    | none => simp
    | some x =>
      rw [hia] at hcond
      dsimp only at hcond
      rw [Bool.not_eq_true'] at hcond
      have hxin : x ∉ (db.attempts.filter fun c => c.recipeId == rid).map (·.id) := by
        simpa using hcond
      have hbin : b.id ∈ (db.attempts.filter fun c => c.recipeId == rid).map (·.id) :=
        List.mem_map.mpr ⟨b, List.mem_filter.mpr ⟨hbmem, by simp [hbrid]⟩, rfl⟩
      intro hcontra
      rw [Option.some.injEq] at hcontra
      rw [hcontra] at hxin
      exact hxin hbin
  · intro r hr
    rw [List.mem_filter] at hr
    simpa using hr.2
  · have hnone : lookupRecipe (db.recipes.filter fun r => r.id != rid) rid = none := by
      apply lookupRecipe_eq_none
      intro r hr
      rw [List.mem_filter] at hr
      simpa using hr.2
    unfold getRecipe
    rw [hnone]
  · intro r hr hne
    exact List.mem_filter.mpr ⟨hr, by simpa using hne⟩
  · intro a ha hne
    apply List.mem_filter.mpr
    refine ⟨ha, ?_⟩
    rw [Bool.not_eq_true']
    have hnin : a.id ∉ (db.attempts.filter fun c => c.recipeId == rid).map (·.id) := by
      intro hmem
      rcases List.mem_map.mp hmem with ⟨b, hb, hbid⟩
      rw [List.mem_filter] at hb
      have hbrid : b.recipeId = rid := by simpa using hb.2
      have hab : b = a := List.inj_on_of_nodup_map han hb.1 ha hbid
      rw [hab] at hbrid
      exact hne hbrid
    simpa using hnin
  · intro i hi hir hcond
    apply List.mem_filter.mpr
    refine ⟨?_, by simpa using hir⟩
    apply List.mem_filter.mpr
    refine ⟨hi, ?_⟩
    cases hia : i.attemptId with
    | none => rfl
    | some x =>
      dsimp only
      rw [Bool.not_eq_true']
      have hxin : x ∉ (db.attempts.filter fun c => c.recipeId == rid).map (·.id) := by
        intro hmem
        rcases List.mem_map.mp hmem with ⟨b, hb, hbid⟩
        rw [List.mem_filter] at hb
        have hbrid : b.recipeId = rid := by simpa using hb.2
        have := hcond b hb.1 hbrid
        rw [hia, hbid] at this
        exact this rfl
      simpa using hxin

/-! ### Ownership gate (C4) and frame behaviour of the image set (C9) -/

theorem notOwner_iff {recipe : Recipe} {uid : Nat} :
    notOwner recipe uid = true ↔ recipe.authorId ≠ some uid := by
  unfold notOwner
  cases h : recipe.authorId <;> simp [h]

theorem putRecipe_403 (db : DB) (uid rid : Nat) (recipe : Recipe) (p : RecipePayload)
    (hlk : lookupRecipe db.recipes rid = some recipe)
    (hne : recipe.authorId ≠ some uid) :
    putRecipe db (some uid) rid p = (.err 403 [mkErr "auth" "forbidden"], db) := by
  unfold putRecipe
  rw [hlk]
  dsimp only
  rw [if_pos (notOwner_iff.mpr hne)]

theorem patchRecipe_403 (db : DB) (uid rid : Nat) (recipe : Recipe) (p : RecipePayload)
    (hlk : lookupRecipe db.recipes rid = some recipe)
    (hne : recipe.authorId ≠ some uid) :
    patchRecipe db (some uid) rid p = (.err 403 [mkErr "auth" "forbidden"], db) := by
  unfold patchRecipe
  rw [hlk]
  dsimp only
  rw [if_pos (notOwner_iff.mpr hne)]

theorem deleteRecipe_403 (db : DB) (uid rid : Nat) (recipe : Recipe)
    (hlk : lookupRecipe db.recipes rid = some recipe)
    (hne : recipe.authorId ≠ some uid) :
    deleteRecipe db (some uid) rid = (.err 403 [mkErr "auth" "forbidden"], db) := by
  unfold deleteRecipe
  rw [hlk]
  dsimp only
  rw [if_pos (notOwner_iff.mpr hne)]

/-- The full content of the ownership claim at one store and recipe: a
session user who is not the author (in particular any user when
`authorId` is null) gets a 403 from PUT, PATCH and DELETE with the store
untouched, and those routes only ever succeed for the author. -/
def ownershipClaim (db : DB) (rid : Nat) (recipe : Recipe) : Prop :=
  (∀ uid, recipe.authorId ≠ some uid →
     (∀ p, putRecipe db (some uid) rid p = (.err 403 [mkErr "auth" "forbidden"], db)) ∧
     (∀ p, patchRecipe db (some uid) rid p = (.err 403 [mkErr "auth" "forbidden"], db)) ∧
     deleteRecipe db (some uid) rid = (.err 403 [mkErr "auth" "forbidden"], db)) ∧
  (recipe.authorId = none →
     ∀ uid, (∀ p, putRecipe db (some uid) rid p = (.err 403 [mkErr "auth" "forbidden"], db)) ∧
       (∀ p, patchRecipe db (some uid) rid p = (.err 403 [mkErr "auth" "forbidden"], db)) ∧
       deleteRecipe db (some uid) rid = (.err 403 [mkErr "auth" "forbidden"], db)) ∧
  (∀ uid p, (putRecipe db (some uid) rid p).1.isOk = true → recipe.authorId = some uid) ∧
  (∀ uid p, (patchRecipe db (some uid) rid p).1.isOk = true → recipe.authorId = some uid) ∧
  (∀ uid, (deleteRecipe db (some uid) rid).1.isOk = true → recipe.authorId = some uid)

/-- C4: PUT, PATCH and DELETE on an existing recipe succeed only for the
session user matching `authorId`; any other session user gets 403 with
the store unchanged, and a null `authorId` means 403 for everyone. -/
theorem recipe_ownership_gate (db : DB) (rid : Nat) (recipe : Recipe)
    (hlk : lookupRecipe db.recipes rid = some recipe) :
    ownershipClaim db rid recipe := by
  refine ⟨?_, ?_, ?_, ?_, ?_⟩
  · intro uid hne
    exact ⟨fun p => putRecipe_403 db uid rid recipe p hlk hne,
      fun p => patchRecipe_403 db uid rid recipe p hlk hne,
      deleteRecipe_403 db uid rid recipe hlk hne⟩
  · intro hnull uid
    have hne : recipe.authorId ≠ some uid := by simp [hnull]
    exact ⟨fun p => putRecipe_403 db uid rid recipe p hlk hne,
      fun p => patchRecipe_403 db uid rid recipe p hlk hne,
      deleteRecipe_403 db uid rid recipe hlk hne⟩
  · intro uid p hok
    by_cases hn : recipe.authorId = some uid
    · exact hn
    · rw [putRecipe_403 db uid rid recipe p hlk hn] at hok
      simp [Resp.isOk] at hok
  · intro uid p hok
    by_cases hn : recipe.authorId = some uid
    · exact hn
    · rw [patchRecipe_403 db uid rid recipe p hlk hn] at hok
      simp [Resp.isOk] at hok
  · intro uid hok
    by_cases hn : recipe.authorId = some uid
    · exact hn
    · rw [deleteRecipe_403 db uid rid recipe hlk hn] at hok
      simp [Resp.isOk] at hok

/-- The full content of the PUT/PATCH image-frame claim at one store and
owned recipe: an owner PUT whose payload omits `images` still succeeds,
deletes every direct image of the recipe and inserts none (other images
untouched); a PATCH omitting `images` leaves the image table untouched;
and the PUT deletion never happens when ownership or validation fails. -/
def putImagesClaim (db : DB) (uid rid : Nat) (recipe : Recipe) : Prop :=
  (∀ p : RecipePayload, p.images = none → updateFieldErrors p = [] →
     (putRecipe db (some uid) rid p).1.isOk = true ∧
     (putRecipe db (some uid) rid p).2.images =
       db.images.filter (fun i => i.recipeId != some rid) ∧
     ((putRecipe db (some uid) rid p).2.images.filter
       (fun i => i.recipeId == some rid)) = []) ∧
  (∀ p : RecipePayload, p.images = none → patchErrors db rid p = [] →
     (patchRecipe db (some uid) rid p).2.images = db.images) ∧
  (∀ (p : RecipePayload) uid2, recipe.authorId ≠ some uid2 →
     (putRecipe db (some uid2) rid p).2 = db) ∧
  (∀ p : RecipePayload, updateFieldErrors p ≠ [] →
     (putRecipe db (some uid) rid p).2 = db)

/-- C9: an owner PUT that omits the `images` key still deletes every
direct image of the recipe and inserts none, leaving the direct image set
empty, while PATCH without the key leaves images untouched; the deletion
happens only behind the ownership and validation gates. -/
theorem putRecipe_replaces_images (db : DB) (uid rid : Nat) (recipe : Recipe)
    (hlk : lookupRecipe db.recipes rid = some recipe)
    (hown : recipe.authorId = some uid) :
    putImagesClaim db uid rid recipe := by
  have hng : notOwner recipe uid = false := by
    simp [notOwner, hown]
  refine ⟨?_, ?_, ?_, ?_⟩
  · intro p hpi herr
    unfold putRecipe
    rw [hlk]
    dsimp only
    rw [if_neg (by simp [hng]), if_neg (not_not_intro herr)]
    refine ⟨rfl, ?_, ?_⟩
    · dsimp only
      rw [hpi]
      dsimp only [jArrVal]
      rw [List.map_nil, List.append_nil]
    · dsimp only
      rw [hpi]
      dsimp only [jArrVal]
      rw [List.map_nil, List.append_nil, List.filter_filter]
      apply List.filter_eq_nil_iff.mpr
      intro i _
      cases hri : i.recipeId <;> simp [hri]
  · intro p hpi herr
    unfold patchRecipe
    rw [hlk]
    dsimp only
    rw [if_neg (by simp [hng]), if_neg (not_not_intro herr), hpi]
  · intro p uid2 hne
    rw [putRecipe_403 db uid2 rid recipe p hlk hne]
  · intro p herr
    unfold putRecipe
    rw [hlk]
    dsimp only
    by_cases hno : notOwner recipe uid = true
    · rw [if_pos hno]
    · rw [if_neg hno, if_pos herr]

/-! ### Recipe creation: auto best attempt (C3) and author binding (C10) -/

/-- The full content of the create-auto-best claim at one store and valid
payload: a body that is a string and non-empty after trimming yields a 201
whose recipe carries a non-null `bestAttempt` copying body, feedback and
image urls, recorded as `bestAttemptId` both in the response and in the
stored row, with exactly the one auto-created attempt appended; an absent
or blank body yields a 201 with `bestAttempt: null` and no attempt. -/
def createAutoBestClaim (db : DB) (sess : Option Nat) (p : RecipePayload) : Prop :=
  (∀ s, p.body = some (.str s) → jsTrim s ≠ "" →
     ∃ v av, (postRecipes db sess p).1 = .ok 201 (.recipeOut v) ∧
       v.body = s ∧ v.bestAttempt = some av ∧ v.bestAttemptId = some av.id ∧
       av.body = s ∧ av.feedback = v.feedback ∧ av.images = v.images ∧
       av.recipeId = v.id ∧
       (∃ r', lookupRecipe (postRecipes db sess p).2.recipes v.id = some r' ∧
          r'.bestAttemptId = some av.id) ∧
       (postRecipes db sess p).2.attempts =
         db.attempts ++ [⟨av.id, av.body, av.feedback, v.id, db.now + 1⟩]) ∧
  ((p.body = none ∨ ∃ s, p.body = some (.str s) ∧ jsTrim s = "") →
     ∃ v, (postRecipes db sess p).1 = .ok 201 (.recipeOut v) ∧
       v.bestAttempt = none ∧ v.bestAttemptId = none ∧ v.attempts = [] ∧
       (postRecipes db sess p).2.attempts = db.attempts)

/-- C3: a valid create whose body is non-empty after trimming returns a
recipe whose `bestAttempt` copies body/feedback/images and is recorded as
`bestAttemptId`; an empty or absent body creates no attempt and returns
`bestAttempt: null`. -/
theorem createRecipe_autoBest (db : DB) (sess : Option Nat) (p : RecipePayload)
    (hWF : WF db) (hval : createErrors p = []) (hfk : authorOK db sess p = true) :
    createAutoBestClaim db sess p := by
  rcases postRecipes_spec db sess p hWF hval hfk with
    ⟨v, hresp, hvid, _, hvbody, hvfb, _, hvimgs, ⟨r', hr'lk, _, hr'best, _⟩, hne, hemp⟩
  constructor
  · intro s hs htrim
    have hsb : jStrOrEmpty p.body = s := by rw [hs]; rfl
    rw [hsb] at hvbody hne
    rcases hne htrim with ⟨av, hbest, hbid, hatts, havb, havf, havi, havr, hstate⟩
    refine ⟨v, av, hresp, hvbody, hbest, hbid, havb, ?_, ?_, ?_, ?_, ?_⟩
    · rw [havf, hvfb]
    · rw [havi, hvimgs]
    · rw [havr, hvid]
    · refine ⟨r', by rw [hvid]; exact hr'lk, ?_⟩
      rw [hr'best, hbid]
    · rw [hstate, hvid]
  · intro hcase
    have hsb : jsTrim (jStrOrEmpty p.body) = "" := by
      rcases hcase with hnone | ⟨s, hs, hst⟩
      · rw [hnone]
        rfl
      · rw [hs]
        exact hst
    rcases hemp hsb with ⟨hbest, hbid, hatts, hstate⟩
    exact ⟨v, hresp, hbest, hbid, hatts, hstate⟩

/-- The full content of the author-binding claim at one store and valid
payload: with a session the stored and returned `authorId` is the session
user whatever the payload says; without a session it is the payload's
`authorId`, or null when the payload has none. -/
def createAuthorClaim (db : DB) (p : RecipePayload) : Prop :=
  (∀ uid, (db.users.any fun u => u.id == uid) = true →
     ∃ v, (postRecipes db (some uid) p).1 = .ok 201 (.recipeOut v) ∧
       v.authorId = some uid ∧
       ∃ r', lookupRecipe (postRecipes db (some uid) p).2.recipes v.id = some r' ∧
         r'.authorId = some uid) ∧
  (p.authorId = none →
     ∃ v, (postRecipes db none p).1 = .ok 201 (.recipeOut v) ∧
       v.authorId = none ∧
       ∃ r', lookupRecipe (postRecipes db none p).2.recipes v.id = some r' ∧
         r'.authorId = none) ∧
  (∀ a, p.authorId = some a → (db.users.any fun u => u.id == a) = true →
     ∃ v, (postRecipes db none p).1 = .ok 201 (.recipeOut v) ∧
       v.authorId = some a ∧
       ∃ r', lookupRecipe (postRecipes db none p).2.recipes v.id = some r' ∧
         r'.authorId = some a)

/-- C10: with a session, the created recipe's author is the session user
regardless of the payload; without one, it is whatever (existing) user id
the payload names, or null when absent. -/
theorem createRecipe_authorBinding (db : DB) (p : RecipePayload)
    (hWF : WF db) (hval : createErrors p = []) :
    createAuthorClaim db p := by
  refine ⟨?_, ?_, ?_⟩
  · intro uid huid
    have hfk : authorOK db (some uid) p = true := by
      simp only [authorOK, resolvedAuthor]
      exact huid
    rcases postRecipes_spec db (some uid) p hWF hval hfk with
      ⟨v, hresp, hvid, _, _, _, hauth, _, ⟨r', hr'lk, hr'auth, _, _⟩, _, _⟩
    have hra : resolvedAuthor (some uid) p = some uid := rfl
    refine ⟨v, hresp, by rw [hauth, hra], r', by rw [hvid]; exact hr'lk, by rw [hr'auth, hra]⟩
  · intro hnone
    have hfk : authorOK db none p = true := by
      simp only [authorOK, resolvedAuthor, hnone]
    rcases postRecipes_spec db none p hWF hval hfk with
      ⟨v, hresp, hvid, _, _, _, hauth, _, ⟨r', hr'lk, hr'auth, _, _⟩, _, _⟩
    have hra : resolvedAuthor none p = none := by
      simp [resolvedAuthor, hnone]
    refine ⟨v, hresp, by rw [hauth, hra], r', by rw [hvid]; exact hr'lk, by rw [hr'auth, hra]⟩
  · intro a ha huid
    have hra : resolvedAuthor none p = some a := by
      simp [resolvedAuthor, ha]
    have hfk : authorOK db none p = true := by
      simp only [authorOK, hra]
      exact huid
    rcases postRecipes_spec db none p hWF hval hfk with
      ⟨v, hresp, hvid, _, _, _, hauth, _, ⟨r', hr'lk, hr'auth, _, _⟩, _, _⟩
    refine ⟨v, hresp, by rw [hauth, hra], r', by rw [hvid]; exact hr'lk, by rw [hr'auth, hra]⟩

/-! ### Listing (C7) -/

/-- Case-insensitive containment of the (already lowercased) query. -/
def containsCI (hay q : String) : Bool := jsIncludes (jsToLower hay) q

theorem jsIncludes_nil (q : String) (hq : q ≠ "") : jsIncludes "" q = false := by
  unfold jsIncludes
  show q.data.isEmpty = false
  cases hd : q.data with
  | nil => exact absurd (String.ext hd) hq
  | cons c t => rfl

theorem guard_includes (s q : String) (hq : q ≠ "") :
    ((s != "") && jsIncludes (jsToLower s) q) = jsIncludes (jsToLower s) q := by
  by_cases hs : s = ""
  · subst hs
    rw [show jsToLower "" = "" from rfl, jsIncludes_nil q hq]
    rfl
  · have : (s != "") = true := by simpa using hs
    rw [this, Bool.true_and]

theorem matchesQ_eq (q : String) (hq : q ≠ "") (v : RecipeView) :
    matchesQ q v =
      (containsCI v.title q || containsCI v.body q || containsCI v.feedback q) := by
  unfold matchesQ containsCI
  rw [guard_includes _ _ hq, guard_includes _ _ hq, guard_includes _ _ hq]

/-- The search filter of the route, phrased on the stored row. -/
def rowMatches (q : String) (r : Recipe) : Bool :=
  containsCI r.title q || containsCI r.body q || containsCI r.feedback q

theorem listCore_spec (db : DB) (base : List Recipe) (q : String) :
    (((if q ≠ "" then
        ((List.insertionSort byNewest base).map (recipeViewRaw db)).filter (matchesQ q)
      else
        (List.insertionSort byNewest base).map (recipeViewRaw db)).map withBest).Pairwise
      (fun x y : RecipeView => y.createdAt ≤ x.createdAt)) ∧
    (∀ v, v ∈ (if q ≠ "" then
        ((List.insertionSort byNewest base).map (recipeViewRaw db)).filter (matchesQ q)
      else
        (List.insertionSort byNewest base).map (recipeViewRaw db)).map withBest ↔
      ∃ r ∈ base, (q ≠ "" → rowMatches q r = true) ∧ v = withBest (recipeViewRaw db r)) := by
  have hsorted : List.Pairwise byNewest (List.insertionSort byNewest base) :=
    List.sorted_insertionSort byNewest base
  have hlist : (((List.insertionSort byNewest base).map (recipeViewRaw db)).map withBest).Pairwise
      (fun x y : RecipeView => y.createdAt ≤ x.createdAt) := by
    apply List.Pairwise.map
    · intro a b hab
      exact hab
    · exact List.Pairwise.map _ (fun a b hab => hab) hsorted
  constructor
  · by_cases hq : q = ""
    · rw [if_neg (not_not_intro hq)]
      exact hlist
    · rw [if_pos hq]
      apply List.Pairwise.map
      · intro a b hab
        exact hab
      · exact List.Pairwise.sublist (List.filter_sublist _)
          (List.Pairwise.map _ (fun a b hab => hab) hsorted)
  · intro v
    by_cases hq : q = ""
    · rw [if_neg (not_not_intro hq)]
      constructor
      · intro hv
        rcases List.mem_map.mp hv with ⟨w, hw, rfl⟩
        rcases List.mem_map.mp hw with ⟨r, hr, rfl⟩
        exact ⟨r, (List.mem_insertionSort byNewest).mp hr,
          fun hc => absurd hq hc, rfl⟩
      · rintro ⟨r, hr, _, rfl⟩
        exact List.mem_map.mpr ⟨recipeViewRaw db r,
          List.mem_map.mpr ⟨r, (List.mem_insertionSort byNewest).mpr hr, rfl⟩, rfl⟩
    · rw [if_pos hq]
      constructor
      · intro hv
        rcases List.mem_map.mp hv with ⟨w, hw, rfl⟩
        rw [List.mem_filter] at hw
        obtain ⟨hw1, hw2⟩ := hw
        rcases List.mem_map.mp hw1 with ⟨r, hr, rfl⟩
        refine ⟨r, (List.mem_insertionSort byNewest).mp hr, ?_, rfl⟩
        intro _
        rw [matchesQ_eq q hq] at hw2
        exact hw2
      · rintro ⟨r, hr, hm, rfl⟩
        apply List.mem_map.mpr
        refine ⟨recipeViewRaw db r, ?_, rfl⟩
        apply List.mem_filter.mpr
        refine ⟨List.mem_map.mpr ⟨r, (List.mem_insertionSort byNewest).mpr hr, rfl⟩, ?_⟩
        rw [matchesQ_eq q hq]
        exact hm hq

/-- The full content of the list claim at one store and request: `mine`
without a session is a 401; otherwise the call succeeds without touching
the store, the items are ordered newest-created-first, and a view is
returned exactly for the recipes passing the `mine` restriction and the
case-insensitive substring filter, each enriched by `recipeWithBest`. -/
def listClaim (db : DB) (sess : Option Nat) (q : String) (mine : Bool) : Prop :=
  (mine = true → sess = none →
     listRecipes db sess q mine = (.err 401 [mkErr "auth" "authentication required"], db)) ∧
  ((mine = true → sess ≠ none) →
     ∃ items : List RecipeView,
       (listRecipes db sess q mine).1 = .ok 200 (.listOut items.length items) ∧
       (listRecipes db sess q mine).2 = db ∧
       items.Pairwise (fun x y : RecipeView => y.createdAt ≤ x.createdAt) ∧
       (∀ v, v ∈ items ↔ ∃ r ∈ db.recipes,
          (mine = true → r.authorId = sess) ∧
          (jsToLower q ≠ "" → rowMatches (jsToLower q) r = true) ∧
          v = withBest (recipeViewRaw db r)))

/-- C7: the list route 401s when `mine` is requested without a session;
otherwise it returns, newest first, exactly the recipes that pass the
`mine` restriction and the case-insensitive `q` substring filter over
title, body and feedback, each enriched with its best attempt. -/
theorem listRecipes_shape (db : DB) (sess : Option Nat) (q : String) (mine : Bool) :
    listClaim db sess q mine := by
  constructor
  · intro hm hs
    subst hm
    subst hs
    unfold listRecipes
    dsimp only
    have hc : (true && (none : Option Nat).isNone) = true := rfl
    rw [if_pos hc]
  · intro hms
    unfold listRecipes
    cases mine with
    | false =>
      dsimp only
      rw [if_neg (by simp)]
      refine ⟨_, rfl, rfl, ?_, ?_⟩
      · exact (listCore_spec db db.recipes (jsToLower q)).1
      · intro v
        rw [(listCore_spec db db.recipes (jsToLower q)).2 v]
        constructor
        · rintro ⟨r, hr, hq, rfl⟩
          exact ⟨r, hr, by simp, hq, rfl⟩
        · rintro ⟨r, hr, _, hq, rfl⟩
          exact ⟨r, hr, hq, rfl⟩
    | true =>
      cases sess with
      | none => exact absurd rfl (hms rfl)
      | some uid =>
        dsimp only
        rw [if_neg (by simp)]
        refine ⟨_, rfl, rfl, ?_, ?_⟩
        · exact (listCore_spec db (db.recipes.filter fun r => r.authorId == some uid)
            (jsToLower q)).1
        · intro v
          rw [(listCore_spec db (db.recipes.filter fun r => r.authorId == some uid)
            (jsToLower q)).2 v]
          constructor
          · rintro ⟨r, hr, hq, rfl⟩
            rw [List.mem_filter] at hr
            exact ⟨r, hr.1, fun _ => by simpa using hr.2, hq, rfl⟩
          · rintro ⟨r, hr, hmine, hq, rfl⟩
            refine ⟨r, List.mem_filter.mpr ⟨hr, ?_⟩, hq, rfl⟩
            simpa using hmine rfl

/-! ### A concrete well-formed store used to instantiate the theorems -/

def exUser : User := ⟨1, "a@b.c", bcryptHash "pw123", none⟩

def exUser2 : User := ⟨4, "d@e.f", bcryptHash "pw456", none⟩

def exRecipe : Recipe := ⟨2, "Soup", "boil it", "", some 3, some 1, 0⟩

def exRecipe2 : Recipe := ⟨5, "Pie", "bake", "fine", none, some 4, 1⟩

def exAttempt : Attempt := ⟨3, "boil it", "", 2, 0⟩

def exAttempt2 : Attempt := ⟨6, "bake", "", 5, 1⟩

def exImage : Image := ⟨"img2", some 2, none⟩

def exImage2 : Image := ⟨"img3", none, some 3⟩

def exDB : DB :=
  ⟨[exUser, exUser2], [exRecipe, exRecipe2], [exAttempt, exAttempt2], [exImage, exImage2], 7, 2⟩

def exPayload : RecipePayload := { title := some (.str "Soup"), body := some (.str "boil it") }

/-! ### Auth routes: duplicate email (C5) and login failure shape (C6) -/

/-- C5: the register route checks the duplicate with the raw request
email while rows store the trimmed lowercased one, so an email that is a
duplicate only after normalization slips past the 409 check, hits the
`User_email_key` unique index inside `user.create`, and the `catch`
answers a 500 database error instead of the 409 the spec states; no user
row is created either way, and only a byte-identical email gets the 409. -/
theorem register_normalized_duplicate_500 :
    (register exDB none (some (.str "A@b.c")) (some (.str "secret")) none).1 =
      .err 500 [mkErr "database" "Failed to register"] ∧
    (register exDB none (some (.str "A@b.c")) (some (.str "secret")) none).2.1 = exDB ∧
    (register exDB none (some (.str "a@b.c")) (some (.str "secret")) none).1 =
      .err 409 [mkErr "email" "email already registered"] := by
  decide

/-- C6 (counterexample): the two login failures both answer 401 with the
message "invalid credentials", but the error's `field` is "email" for an
unknown email and "password" for a hash mismatch, so the two responses
differ and the claim that they are identical is false. -/
theorem login_error_fields_differ :
    (login exDB none (some (.str "missing@x.y")) (some (.str "pw123"))).1 =
      .err 401 [⟨some "email", "invalid credentials"⟩] ∧
    (login exDB none (some (.str "a@b.c")) (some (.str "wrong"))).1 =
      .err 401 [⟨some "password", "invalid credentials"⟩] ∧
    (login exDB none (some (.str "missing@x.y")) (some (.str "pw123"))).1 ≠
      (login exDB none (some (.str "a@b.c")) (some (.str "wrong"))).1 := by
  decide

/-- What login failure actually looks like: same status and message in
both cases, with the error field naming the failing check. -/
def loginFailureClaim (db : DB) (email pw : String) : Prop :=
  (findUserByEmail db.users (jsToLower (jsTrim email)) = none →
     (login db none (some (.str email)) (some (.str pw))).1 =
       .err 401 [mkErr "email" "invalid credentials"]) ∧
  (∀ u, findUserByEmail db.users (jsToLower (jsTrim email)) = some u →
     bcryptHash pw ≠ u.passwordHash →
     (login db none (some (.str email)) (some (.str pw))).1 =
       .err 401 [mkErr "password" "invalid credentials"])

/-- C6 (amended): login answers 401 with the same generic message
"invalid credentials" for an unknown email and for a wrong password, but
the error entry's `field` differs ("email" vs "password"), so the
responses are distinguishable. -/
theorem login_generic_message (db : DB) (email pw : String)
    (he : jsTrim email ≠ "") (hp : jsTrim pw ≠ "") :
    loginFailureClaim db email pw := by
  have herr : credErrors (some (.str email)) (some (.str pw)) = [] := by
    simp [credErrors, jIsNonEmptyString, he, hp]
  constructor
  · intro hn
    unfold login
    dsimp only
    rw [herr]
    rw [if_neg (by simp)]
    dsimp only [jStrVal]
    rw [hn]
  · intro u hu hne
    unfold login
    dsimp only
    rw [herr]
    rw [if_neg (by simp)]
    dsimp only [jStrVal]
    rw [hu]
    dsimp only
    have hcmp : (bcryptHash pw == u.passwordHash) = false := by
      simp [hne]
    rw [hcmp, if_neg Bool.false_ne_true]

theorem login_generic_message_witness :
    jsTrim "missing@x.y" ≠ "" ∧ jsTrim "pw" ≠ "" ∧ loginFailureClaim exDB "missing@x.y" "pw" :=
  ⟨by decide, by decide, login_generic_message exDB "missing@x.y" "pw" (by decide) (by decide)⟩

/-! ### Upload rejections (C8) -/

/-- C8 (counterexample): a file one byte over the 10 MiB ceiling is
answered by the framework's default error handler with a 500, not the
400 the claim states; no file is stored and no url returned. -/
theorem upload_oversize_not_400 :
    (postUpload [] (some (10 * 1024 * 1024 + 1)) true "f.webp" "http://h").1 = .fatal 500 ∧
    (postUpload [] (some (10 * 1024 * 1024 + 1)) true "f.webp" "http://h").1.status ≠ 400 ∧
    (postUpload [] (some (10 * 1024 * 1024 + 1)) true "f.webp" "http://h").2 = [] := by
  decide

/-- Upload failure shape: 400 exactly for a missing file; an oversized
file aborts in the upload middleware and surfaces as a 500, storing
nothing. -/
def uploadClaim (stored : List String) (file : Option Nat) (codecOk : Bool)
    (filename base : String) : Prop :=
  ((postUpload stored file codecOk filename base).1.status = 400 ↔ file = none) ∧
  (file = none →
     postUpload stored file codecOk filename base =
       (.err 400 [mkErr "file" "No file uploaded"], stored)) ∧
  (∀ sz, file = some sz → sz > uploadSizeLimit →
     postUpload stored file codecOk filename base = (.fatal 500, stored))

/-- C8 (amended): the upload route answers 400 exactly when no file is
attached; a file above the configured ceiling is rejected by the upload
middleware and surfaces as a 500 through the default error handler; in
both cases nothing is stored and no url is returned. -/
theorem upload_rejections (stored : List String) (file : Option Nat) (codecOk : Bool)
    (filename base : String) : uploadClaim stored file codecOk filename base := by
  unfold uploadClaim postUpload
  cases file with
  | none =>
    refine ⟨by simp [Resp.status], fun _ => rfl, fun sz h => absurd h (by simp)⟩
  | some sz =>
    dsimp only
    by_cases hsz : sz > uploadSizeLimit
    · rw [if_pos hsz]
      refine ⟨by simp [Resp.status], fun h => absurd h (by simp), ?_⟩
      intro sz' h _
      rfl
    · rw [if_neg hsz]
      refine ⟨?_, fun h => absurd h (by simp), ?_⟩
      · cases codecOk <;> simp [Resp.status]
      · intro sz' h hgt
        rw [Option.some.injEq] at h
        rw [h] at hsz
        exact absurd hgt hsz

theorem upload_rejections_witness : uploadClaim [] (some 5) true "f.webp" "http://h" :=
  upload_rejections [] (some 5) true "f.webp" "http://h"

/-! ### Witnesses instantiating the hypotheses of the claim theorems -/

theorem bestAttemptId_invariant_witness :
    WF exDB ∧ BestInv exDB ∧ bestInvClaim exDB :=
  ⟨by decide, by decide, bestAttemptId_invariant exDB (by decide) (by decide)⟩

theorem deleteRecipe_cascade_witness :
    WF exDB ∧ lookupRecipe exDB.recipes 2 = some exRecipe ∧
    exRecipe.authorId = some 1 ∧ deleteCascadeClaim exDB 1 2 :=
  ⟨by decide, by decide, by decide,
    deleteRecipe_cascade exDB 1 2 exRecipe (by decide) (by decide) (by decide)⟩

theorem createRecipe_autoBest_witness :
    WF exDB ∧ createErrors exPayload = [] ∧ authorOK exDB (some 1) exPayload = true ∧
    createAutoBestClaim exDB (some 1) exPayload :=
  ⟨by decide, by decide, by decide,
    createRecipe_autoBest exDB (some 1) exPayload (by decide) (by decide) (by decide)⟩

theorem recipe_ownership_gate_witness :
    lookupRecipe exDB.recipes 2 = some exRecipe ∧ ownershipClaim exDB 2 exRecipe :=
  ⟨by decide, recipe_ownership_gate exDB 2 exRecipe (by decide)⟩

theorem listRecipes_shape_witness : listClaim exDB (some 4) "BOIL" true :=
  listRecipes_shape exDB (some 4) "BOIL" true

theorem putRecipe_replaces_images_witness :
    lookupRecipe exDB.recipes 2 = some exRecipe ∧ exRecipe.authorId = some 1 ∧
    putImagesClaim exDB 1 2 exRecipe :=
  ⟨by decide, by decide, putRecipe_replaces_images exDB 1 2 exRecipe (by decide) (by decide)⟩

theorem createRecipe_authorBinding_witness :
    WF exDB ∧ createErrors exPayload = [] ∧ createAuthorClaim exDB exPayload :=
  ⟨by decide, by decide, createRecipe_authorBinding exDB exPayload (by decide) (by decide)⟩

end Cook
